import Mathlib

/-!
Verification of erppeek.py (OpenERP client library) against its
specification.  The definitions below are a shallow embedding of the
relevant parts of `src/erppeek.py`:

* the domain-query normalizer `searchargs` together with the term regex
  `_term_re` (modelled by `termMatch`, a faithful rendering of the
  backtracking semantics of the Python pattern
  `(\S+)\s*(=|!=|>|>=|<|<=|like|ilike|in|not like|not ilike|not in|child_of)\s*(.*)`),
* `Client.execute` with its `read`/`name_get`/`search`/`search_count`
  special cases and keyword-argument handling,
* the `Record` field cache with its `write`/`unlink` invalidation,
* `Client._auth` and the session cache,
* `Client._model`/`Client.model` memoization and `Model.access`.

Python values appearing in domains and parameter tuples are modelled by
`PyVal`; Python tuples and lists both become Lean lists (tagged by their
constructor).
-/

/-- Model of Python values that flow through the client (domain terms,
parameter tuples, keyword arguments).  A float literal is represented
exactly by its decimal mantissa and power-of-ten exponent. -/
inductive PyVal where
  | vint : Int → PyVal
  | vfloat : Int → Int → PyVal
  | vstr : String → PyVal
  | vbool : Bool → PyVal
  | vnone : PyVal
  | vlist : List PyVal → PyVal
  | vtuple : List PyVal → PyVal
  | vset : List PyVal → PyVal
  | vdict : List (PyVal × PyVal) → PyVal

/-- Python truthiness for the modelled values. -/
def pyTruthy : PyVal → Bool
  | PyVal.vint n => !(n = 0)
  | PyVal.vfloat m _ => !(m = 0)
  | PyVal.vstr s => !(s = "")
  | PyVal.vbool b => b
  | PyVal.vnone => false
  | PyVal.vlist xs => !xs.isEmpty
  | PyVal.vtuple xs => !xs.isEmpty
  | PyVal.vset xs => !xs.isEmpty
  | PyVal.vdict xs => !xs.isEmpty

/-- The whitespace class of Python's `\s` / `str.strip` (ASCII part). -/
def pySpace (c : Char) : Bool :=
  c = ' ' || c = '\t' || c = '\n' || c = '\r' || c = '\x0b' || c = '\x0c'

/-- Model of Python `str.strip()`: remove leading and trailing whitespace. -/
def pyStrip (l : List Char) : List Char :=
  ((l.dropWhile pySpace).reverse.dropWhile pySpace).reverse

/-- Boolean prefix test on character lists (Python regex literal match). -/
def strPrefixOf : List Char → List Char → Bool
  | [], _ => true
  | _ :: _, [] => false
  | a :: as, b :: bs => (a == b) && strPrefixOf as bs

/-- The alternation of `_term_re` in source order (erppeek.py lines 112-115).
Python regex alternation is leftmost-first, not longest-match. -/
def opsAlternation : List String :=
  ["=", "!=", ">", ">=", "<", "<=", "like", "ilike", "in",
   "not like", "not ilike", "not in", "child_of"]

/-- `[n, n-1, ..., 1]` : the lengths a greedy `\S+` tries, longest first. -/
def countdown : Nat → List Nat
  | 0 => []
  | n + 1 => (n + 1) :: countdown n

/-- `[n, n-1, ..., 0]` : the lengths a greedy `\s*` tries, longest first. -/
def countdownZ : Nat → List Nat
  | 0 => [0]
  | n + 1 => (n + 1) :: countdownZ n

/-- One attempt of the operator alternation of `_term_re` at position
`rest2`, with the field group already fixed.  On a hit, the value group is
what `\s*(.*)` captures: skip whitespace greedily, then take characters up
to the next newline (Python's `.` does not match `\n`). -/
def altScan (field : String) (rest2 : List Char) : Option (String × String × String) :=
  List.findSome?
    (fun op =>
      if strPrefixOf op.data rest2 then
        some (field, op,
          String.mk (((rest2.drop op.data.length).dropWhile pySpace).takeWhile
            (fun ch => ch != '\n')))
      else none)
    opsAlternation

/-- Faithful model of `_term_re.match(cs)` (erppeek.py lines 112-115): the
backtracking regex engine tries `\S+` longest-first, then `\s*`
longest-first, then the alternation in source order; the first overall
success wins. -/
def termMatch (cs : List Char) : Option (String × String × String) :=
  List.findSome?
    (fun fl =>
      List.findSome?
        (fun ws => altScan (String.mk (cs.take fl)) ((cs.drop fl).drop ws))
        (countdownZ (((cs.drop fl).takeWhile pySpace).length)))
    (countdown ((cs.takeWhile (fun x => !(pySpace x))).length))

/-- Is `c` an identifier character (terminates a keyword match)? -/
def identChar (c : Char) : Bool := c.isAlphanum || c = '_'

/-- Match a fixed keyword (`None`/`True`/`False`) not followed by a
further identifier character; return the remaining input. -/
def matchKw (kw : List Char) (cs : List Char) : Option (List Char) :=
  if strPrefixOf kw cs then
    let rest := cs.drop kw.length
    match rest with
    | [] => some []
    | c :: _ => if identChar c then none else some rest
  else none

/-- Translation of the common backslash escapes inside string literals
(other escapes keep the escaped character itself; only the resulting
value is approximated, never acceptance). -/
def escChar (c : Char) : Char :=
  if c = 'n' then '\n' else if c = 't' then '\t' else if c = 'r' then '\r' else c

/-- Scan a quoted string body up to the closing quote `q`, handling
backslash escapes; return the content and the remaining input. -/
def scanStr (q : Char) : List Char → Option (List Char × List Char)
  | [] => none
  | '\\' :: rest =>
      match rest with
      | [] => none
      | e :: rest2 =>
          match scanStr q rest2 with
          | some (acc, r) => some (escChar e :: acc, r)
          | none => none
  | c :: rest =>
      if c = q then some ([], rest)
      else
        match scanStr q rest with
        | some (acc, r) => some (c :: acc, r)
        | none => none

/-- Scan a triple-quoted string body up to the closing `qqq`. -/
def scanStr3 (q : Char) : List Char → Option (List Char × List Char)
  | [] => none
  | '\\' :: rest =>
      match rest with
      | [] => none
      | e :: rest2 =>
          match scanStr3 q rest2 with
          | some (acc, r) => some (escChar e :: acc, r)
          | none => none
  | c :: rest =>
      if c = q then
        match rest with
        | c2 :: c3 :: rest2 =>
            if c2 = q && c3 = q then some ([], rest2)
            else
              match scanStr3 q rest with
              | some (acc, r) => some (c :: acc, r)
              | none => none
        | _ =>
            match scanStr3 q rest with
            | some (acc, r) => some (c :: acc, r)
            | none => none
      else
        match scanStr3 q rest with
        | some (acc, r) => some (c :: acc, r)
        | none => none

/-- Parse a (single- or triple-) quoted string starting at the opening
quote `q`. -/
def parseQuoted (q : Char) (rest : List Char) : Option (PyVal × List Char) :=
  match rest with
  | c2 :: c3 :: rest2 =>
      if c2 = q && c3 = q then
        match scanStr3 q rest2 with
        | some (content, r) => some (PyVal.vstr (String.mk content), r)
        | none => none
      else
        match scanStr q rest with
        | some (content, r) => some (PyVal.vstr (String.mk content), r)
        | none => none
  | _ =>
      match scanStr q rest with
      | some (content, r) => some (PyVal.vstr (String.mk content), r)
      | none => none

def digitVal (c : Char) : Nat := c.toNat - '0'.toNat

def hexDigit (c : Char) : Bool :=
  c.isDigit || (Nat.ble 'a'.toNat c.toNat && Nat.ble c.toNat 'f'.toNat)
    || (Nat.ble 'A'.toNat c.toNat && Nat.ble c.toNat 'F'.toNat)

def hexVal (c : Char) : Nat :=
  if c.isDigit then digitVal c
  else if Nat.ble 'a'.toNat c.toNat && Nat.ble c.toNat 'f'.toNat then
    c.toNat - 'a'.toNat + 10
  else c.toNat - 'A'.toNat + 10

def octDigit (c : Char) : Bool :=
  Nat.ble '0'.toNat c.toNat && Nat.ble c.toNat '7'.toNat

def binDigit (c : Char) : Bool := c = '0' || c = '1'

/-- Numeric value of a digit run in the given base. -/
def radixVal (base : Nat) (dv : Char → Nat) (l : List Char) : Nat :=
  l.foldl (fun acc c => acc * base + dv c) 0

/-- No two consecutive underscores (Python digit-group separators). -/
def noDoubleU : List Char → Bool
  | '_' :: '_' :: _ => false
  | _ :: rest => noDoubleU rest
  | [] => true

/-- A well-formed digit run: nonempty, starts and ends with a digit of
the base, single underscores allowed between digits. -/
def runWf (digitP : Char → Bool) (l : List Char) : Bool :=
  (match l with
   | c :: _ => digitP c
   | [] => false)
  && (match l.getLast? with
      | some c => digitP c
      | none => false)
  && noDoubleU l
  && l.all (fun c => digitP c || c = '_')

/-- Parse a radix-prefixed integer run (after `0x`/`0o`/`0b`). -/
def parseRadixRun (digitP : Char → Bool) (dv : Char → Nat) (base : Nat)
    (sgn : Int) (cs : List Char) : Option (PyVal × List Char) :=
  let run := cs.takeWhile (fun c => digitP c || c = '_')
  if runWf digitP run then
    some (PyVal.vint (sgn * (radixVal base dv (run.filter digitP) : Int)),
      cs.drop run.length)
  else none

/-- Parse an exponent part (after `e`/`E`): optional sign, digit run. -/
def parseExp (cs : List Char) : Option (Int × List Char) :=
  let sp : Int × List Char :=
    match cs with
    | '+' :: r => (1, r)
    | '-' :: r => (-1, r)
    | _ => (1, cs)
  let run := sp.2.takeWhile (fun c => c.isDigit || c = '_')
  if runWf Char.isDigit run then
    some (sp.1 * (radixVal 10 digitVal (run.filter Char.isDigit) : Int),
      sp.2.drop run.length)
  else none

/-- Parse a decimal integer or float literal: digit run, optional
fraction, optional exponent. -/
def parseDecimal (sgn : Int) (cs : List Char) : Option (PyVal × List Char) :=
  let ip := cs.takeWhile (fun c => c.isDigit || c = '_')
  let rest1 := cs.drop ip.length
  let fracInfo : Option (List Char × List Char) :=
    match rest1 with
    | '.' :: r =>
        let f := r.takeWhile (fun c => c.isDigit || c = '_')
        some (f, r.drop f.length)
    | _ => none
  let fp := match fracInfo with | some (f, _) => f | none => []
  let rest2 := match fracInfo with | some (_, r) => r | none => rest1
  let ipd := ip.filter Char.isDigit
  let fpd := fp.filter Char.isDigit
  if (ip.isEmpty || runWf Char.isDigit ip)
      && (fp.isEmpty || runWf Char.isDigit fp)
      && !(ipd.isEmpty && fpd.isEmpty) then
    let expInfo : Option (Option Int × List Char) :=
      match rest2 with
      | 'e' :: r3 =>
          (match parseExp r3 with
           | some (v, r4) => some (some v, r4)
           | none => none)
      | 'E' :: r3 =>
          (match parseExp r3 with
           | some (v, r4) => some (some v, r4)
           | none => none)
      | _ => some (none, rest2)
    match expInfo with
    | none => none
    | some (expOpt, rest3) =>
        match fracInfo, expOpt with
        | none, none =>
            -- a plain int literal may not have a leading zero ('012' is a
            -- syntax error in Python 3)
            (match ipd with
             | '0' :: _ :: _ => none
             | _ => some (PyVal.vint (sgn * (radixVal 10 digitVal ipd : Int)), rest3))
        | _, _ =>
            some (PyVal.vfloat (sgn * (radixVal 10 digitVal (ipd ++ fpd) : Int))
              ((expOpt.getD 0) - (fpd.length : Int)), rest3)
  else none

/-- Parse a number with optional unary sign (whitespace allowed after the
sign, as `ast.literal_eval` accepts a unary `+`/`-` node on a number). -/
def parseNum (cs : List Char) : Option (PyVal × List Char) :=
  let sp : Int × List Char :=
    match cs with
    | '+' :: r => (1, r.dropWhile pySpace)
    | '-' :: r => (-1, r.dropWhile pySpace)
    | _ => (1, cs)
  match sp.2 with
  | '0' :: c :: rest =>
      if c = 'x' || c = 'X' then parseRadixRun hexDigit hexVal 16 sp.1 rest
      else if c = 'o' || c = 'O' then parseRadixRun octDigit digitVal 8 sp.1 rest
      else if c = 'b' || c = 'B' then parseRadixRun binDigit digitVal 2 sp.1 rest
      else parseDecimal sp.1 sp.2
  | _ => parseDecimal sp.1 sp.2

/-- Parse a non-container literal atom: `None`/`True`/`False`, quoted
strings (with optional `b`/`u` prefix), numbers. -/
def parseAtomToken (cs : List Char) : Option (PyVal × List Char) :=
  match matchKw "None".data cs with
  | some r => some (PyVal.vnone, r)
  | none =>
  match matchKw "True".data cs with
  | some r => some (PyVal.vbool true, r)
  | none =>
  match matchKw "False".data cs with
  | some r => some (PyVal.vbool false, r)
  | none =>
  match cs with
  | c :: rest =>
      if c = '\'' || c = '"' then parseQuoted c rest
      else if c = 'b' || c = 'B' || c = 'u' || c = 'U' then
        match rest with
        | q :: rest2 =>
            if q = '\'' || q = '"' then parseQuoted q rest2
            else none
        | [] => none
      else parseNum cs
  | [] => none

mutual

/-- Recursive-descent parser for one Python literal expression: atoms and
arbitrarily nested lists, tuples, sets and dicts, with surrounding
whitespace.  The fuel bounds the recursion depth and is chosen large
enough for any input (each two nested calls consume input). -/
def parseVal : Nat → List Char → Option (PyVal × List Char)
  | 0, _ => none
  | fuel + 1, cs0 =>
      let cs := cs0.dropWhile pySpace
      match cs with
      | '[' :: rest =>
          (match parseSeq fuel ']' rest with
           | some (xs, r) => some (PyVal.vlist xs, r)
           | none => none)
      | '(' :: rest =>
          let r1 := rest.dropWhile pySpace
          (match r1 with
           | ')' :: r2 => some (PyVal.vtuple [], r2)
           | _ =>
              match parseVal fuel r1 with
              | some (v, r2) =>
                  let r3 := r2.dropWhile pySpace
                  (match r3 with
                   | ')' :: r4 => some (v, r4)
                   | ',' :: r4 =>
                      (match parseSeq fuel ')' r4 with
                       | some (xs, r5) => some (PyVal.vtuple (v :: xs), r5)
                       | none => none)
                   | _ => none)
              | none => none)
      | '{' :: rest =>
          let r1 := rest.dropWhile pySpace
          (match r1 with
           | '}' :: r2 => some (PyVal.vdict [], r2)
           | _ =>
              match parseVal fuel r1 with
              | some (k, r2) =>
                  let r3 := r2.dropWhile pySpace
                  (match r3 with
                   | ':' :: r4 =>
                      (match parseVal fuel r4 with
                       | some (v, r5) =>
                          let r6 := r5.dropWhile pySpace
                          (match r6 with
                           | '}' :: r7 => some (PyVal.vdict [(k, v)], r7)
                           | ',' :: r7 =>
                              (match parseDictItems fuel r7 with
                               | some (items, r8) =>
                                  some (PyVal.vdict ((k, v) :: items), r8)
                               | none => none)
                           | _ => none)
                       | none => none)
                   | '}' :: r4 => some (PyVal.vset [k], r4)
                   | ',' :: r4 =>
                      (match parseSeq fuel '}' r4 with
                       | some (xs, r5) => some (PyVal.vset (k :: xs), r5)
                       | none => none)
                   | _ => none)
              | none => none)
      | _ => parseAtomToken cs

/-- Comma-separated values up to a closing bracket (trailing comma
allowed). -/
def parseSeq : Nat → Char → List Char → Option (List PyVal × List Char)
  | 0, _, _ => none
  | fuel + 1, close, cs0 =>
      let cs := cs0.dropWhile pySpace
      match cs with
      | c :: rest =>
          if c = close then some ([], rest)
          else
            match parseVal fuel cs with
            | some (v, r1) =>
                let r2 := r1.dropWhile pySpace
                (match r2 with
                 | ',' :: r3 =>
                    (match parseSeq fuel close r3 with
                     | some (xs, r4) => some (v :: xs, r4)
                     | none => none)
                 | c2 :: r3 => if c2 = close then some ([v], r3) else none
                 | [] => none)
            | none => none
      | [] => none

/-- Comma-separated `key : value` items up to the closing brace (trailing
comma allowed). -/
def parseDictItems : Nat → List Char → Option (List (PyVal × PyVal) × List Char)
  | 0, _ => none
  | fuel + 1, cs0 =>
      let cs := cs0.dropWhile pySpace
      match cs with
      | '}' :: rest => some ([], rest)
      | _ =>
          match parseVal fuel cs with
          | some (k, r1) =>
              let r2 := r1.dropWhile pySpace
              (match r2 with
               | ':' :: r3 =>
                  (match parseVal fuel r3 with
                   | some (v, r4) =>
                      let r5 := r4.dropWhile pySpace
                      (match r5 with
                       | '}' :: r6 => some ([(k, v)], r6)
                       | ',' :: r6 =>
                          (match parseDictItems fuel r6 with
                           | some (items, r7) => some ((k, v) :: items, r7)
                           | none => none)
                       | _ => none)
                   | none => none)
               | _ => none)
          | none => none

end

/-- Remaining elements of a bare (unparenthesized) top-level tuple such
as `1, 2`; trailing comma allowed. -/
def parseBareTail : Nat → List Char → Option (List PyVal)
  | 0, _ => none
  | fuel + 1, cs0 =>
      let cs := cs0.dropWhile pySpace
      match cs with
      | [] => some []
      | _ =>
          match parseVal fuel cs with
          | some (v, r1) =>
              let r2 := r1.dropWhile pySpace
              (match r2 with
               | [] => some [v]
               | ',' :: r3 =>
                  (match parseBareTail fuel r3 with
                   | some xs => some (v :: xs)
                   | none => none)
               | _ => none)
          | none => none

/-- Modelled from the spec: the safe literal evaluator (`ast.literal_eval`,
a standard-library collaborator; erppeek.py lines 34-59 carry a port of
it with the same contract).  It accepts literal expressions only --
`None`/`True`/`False`, signed decimal integers and floats, hex/octal/
binary integers, quoted strings (single- or triple-quoted, with
backslash escapes, optional `b`/`u` prefix), arbitrarily nested lists,
tuples, sets and mappings of literals, and bare top-level tuples -- and
fails on anything else, in particular on bare identifiers such as
`draft`.  A few exotic spellings (adjacent string-literal concatenation,
complex numbers, bytes distinguished from text) are not modelled;
theorems about the value component of a term therefore quantify over an
arbitrary evaluator and use this one only to instantiate them. -/
def literalEval (s : String) : Option PyVal :=
  match parseVal (2 * s.data.length + 2) s.data with
  | some (v, rest) =>
      let r := rest.dropWhile pySpace
      (match r with
       | [] => some v
       | ',' :: r2 =>
          (match parseBareTail (2 * s.data.length + 2) r2 with
           | some xs => some (PyVal.vtuple (v :: xs))
           | none => none)
       | _ => none)
  | none => none

/-- The value component of a normalized term, for a given literal
evaluator `lit`: the literal value if the value text parses, otherwise
the raw text kept as a plain string (erppeek.py lines 229-233). -/
def pyLitOrWith (lit : String → Option PyVal) (v : String) : PyVal :=
  match lit v with
  | some pv => pv
  | none => PyVal.vstr v

/-- `DOMAIN_OPERATORS = frozenset('!|&')` (erppeek.py line 105). -/
def DOMAIN_OPERATORS : List String := ["!", "|", "&"]

/-- Errors raised locally by the client before any remote call. -/
inductive PyErr where
  | valueError : String → PyErr
  | assertionError : PyErr
  | runtimeError : String → PyErr

/-- Normalization of one domain element (body of the `for` loop of
`searchargs`, erppeek.py lines 223-234), for a given literal evaluator
`lit`: strings other than the boolean connectors are parsed with
`_term_re`; a failed match is a hard `ValueError`; other elements pass
through unchanged. -/
def elemNormWith (lit : String → Option PyVal) (e : PyVal) : Except PyErr PyVal :=
  match e with
  | PyVal.vstr s =>
      if DOMAIN_OPERATORS.contains s then Except.ok e
      else
        match termMatch (pyStrip s.data) with
        | none => Except.error (PyErr.valueError ("Cannot parse term " ++ s))
        | some (f, op, v) =>
            Except.ok (PyVal.vtuple [PyVal.vstr f, PyVal.vstr op, pyLitOrWith lit v])
  | _ => Except.ok e

/-- Left-to-right normalization of a domain, stopping at the first bad
term exactly as the Python loop raises there. -/
def normDomainWith (lit : String → Option PyVal) :
    List PyVal → Except PyErr (List PyVal)
  | [] => Except.ok []
  | e :: rest =>
      match elemNormWith lit e with
      | Except.error err => Except.error err
      | Except.ok e2 =>
          match normDomainWith lit rest with
          | Except.error err => Except.error err
          | Except.ok rest2 => Except.ok (e2 :: rest2)

/-- `kwargs.pop(key, dflt)` on an association list: return the first value
stored under `key` (or the default) and the list without that entry. -/
def popKw (kwargs : List (String × PyVal)) (key : String) (dflt : PyVal) :
    PyVal × List (String × PyVal) :=
  match kwargs with
  | [] => (dflt, [])
  | (k, v) :: rest =>
      if k = key then (v, rest)
      else
        let r := popKw rest key dflt
        (r.1, (k, v) :: r.2)

/-- Final packaging step of `searchargs` (erppeek.py lines 235-243): fold
pagination keywords and the context into the positional tuple when a lone
domain was given together with keyword arguments or a context. -/
def searchargsTail (domain2 rest : List PyVal) (kwargs : List (String × PyVal))
    (context : PyVal) : List PyVal × List (String × PyVal) :=
  if (!kwargs.isEmpty || pyTruthy context) && rest.isEmpty then
    let p1 := popKw kwargs "offset" (PyVal.vint 0)
    let p2 := popKw p1.2 "limit" PyVal.vnone
    let p3 := popKw p2.2 "order" PyVal.vnone
    ([PyVal.vlist domain2, p1.1, p2.1, p3.1, context], p3.2)
  else (PyVal.vlist domain2 :: rest, kwargs)

/-- Model of `searchargs(params, kwargs, context)` (erppeek.py lines
213-243), for a given literal evaluator `lit`.  `params` is the
positional-argument tuple; the result is the canonical positional tuple
together with the keyword arguments left after the pops (the Python
function mutates the `kwargs` dict in place).  A Python `context=None`
is `PyVal.vnone`. -/
def searchargsWith (lit : String → Option PyVal) (params : List PyVal)
    (kwargs : List (String × PyVal)) (context : PyVal) :
    Except PyErr (List PyVal × List (String × PyVal)) :=
  match params with
  | [] => Except.ok ([PyVal.vlist []], kwargs)
  | domain0 :: rest =>
      let wrap : Option (List PyVal) :=
        match domain0 with
        | PyVal.vstr _ => some [domain0]
        | PyVal.vtuple _ => some [domain0]
        | PyVal.vlist xs => some xs
        | _ => none
      match wrap with
      | none => Except.ok (params, kwargs)
      | some domain =>
          match normDomainWith lit domain with
          | Except.error e => Except.error e
          | Except.ok domain2 =>
              Except.ok (searchargsTail domain2 rest kwargs context)

/-- The program's `searchargs`: the normalizer instantiated at the safe
literal evaluator. -/
def searchargs : List PyVal → List (String × PyVal) → PyVal →
    Except PyErr (List PyVal × List (String × PyVal)) :=
  searchargsWith literalEval

/-- Python `str.isdigit()` (ASCII model): nonempty and all digits. -/
def pyIsdigit (s : String) : Bool := !s.data.isEmpty && s.data.all Char.isDigit

/-- Is a first domain element "id-like"?  Mirrors the test on `arg[0]` in
`issearchdomain` (erppeek.py lines 206-210); Python `bool` is an `int`
subclass, so booleans count as ids. -/
def idLike : PyVal → Bool
  | PyVal.vint _ => true
  | PyVal.vbool _ => true
  | PyVal.vstr s => pyIsdigit s
  | _ => false

/-- Model of `issearchdomain(arg)` (erppeek.py lines 196-210).  For a
string argument, `arg[0]` is its first character. -/
def issearchdomain : PyVal → Bool
  | PyVal.vstr s =>
      match s.data with
      | [] => true
      | ch :: _ => !ch.isDigit
  | PyVal.vlist xs =>
      (match xs with
       | [] => true
       | x :: _ => !idLike x)
  | PyVal.vtuple xs =>
      (match xs with
       | [] => true
       | x :: _ => !idLike x)
  | _ => false

/-- One remote invocation issued through the authenticated proxy.  The
Python call site is `self._execute(obj, method, *params)`: the `kwargs`
component records what is forwarded as keyword arguments -- the source
forwards none. -/
structure RemoteCall where
  obj : String
  method : String
  params : List PyVal
  kwargs : List (String × PyVal)

/-- Result of one `Client.execute` call: the remote calls issued in order,
the outcome, and the keyword arguments dropped with an
`Ignoring: ...` diagnostic. -/
structure ExecOut where
  calls : List RemoteCall
  outcome : Except PyErr PyVal
  ignored : List (String × PyVal)

/-- Model of `Client.execute(obj, method, *params, **kwargs)` (erppeek.py
lines 442-478).  `env` is the remote responder behind
`self._execute`. -/
def clientExecute (env : String → String → List PyVal → PyVal)
    (obj method : String) (params : List PyVal)
    (kwargs : List (String × PyVal)) : ExecOut :=
  let pc := popKw kwargs "context" PyVal.vnone
  let context := pc.1
  let kw1 := pc.2
  if method = "read" ∨ method = "name_get" then
    match params with
    | [] => { calls := [], outcome := Except.error PyErr.assertionError, ignored := [] }
    | p0 :: prest =>
        let step : Except PyErr (PyVal × List (String × PyVal) × List RemoteCall) :=
          if issearchdomain p0 then
            match searchargs [p0] kw1 context with
            | Except.error e => Except.error e
            | Except.ok (sp, kw2) =>
                Except.ok (env obj "search" sp, kw2, [⟨obj, "search", sp, []⟩])
          else Except.ok (p0, kw1, [])
        match step with
        | Except.error e =>
            { calls := [], outcome := Except.error e, ignored := [] }
        | Except.ok (ids, kw2, pre) =>
            let pk : List PyVal × List (String × PyVal) :=
              if prest.isEmpty then
                if method = "read" then
                  let pf := popKw kw2 "fields" PyVal.vnone
                  ([ids, pf.1], pf.2)
                else ([ids], kw2)
              else (ids :: prest, kw2)
            let params2 := if pyTruthy context then pk.1 ++ [context] else pk.1
            { calls := pre ++ [⟨obj, method, params2, []⟩],
              outcome := Except.ok (env obj method params2),
              ignored := pk.2 }
  else if method = "search" then
    match searchargs params kw1 context with
    | Except.error e => { calls := [], outcome := Except.error e, ignored := [] }
    | Except.ok (sp, kw2) =>
        { calls := [⟨obj, "search", sp, []⟩],
          outcome := Except.ok (env obj "search" sp),
          ignored := kw2 }
  else if method = "search_count" then
    match searchargs params [] PyVal.vnone with
    | Except.error e => { calls := [], outcome := Except.error e, ignored := [] }
    | Except.ok (sp, _) =>
        let params2 := if pyTruthy context then sp ++ [context] else sp
        { calls := [⟨obj, "search_count", params2, []⟩],
          outcome := Except.ok (env obj "search_count" params2),
          ignored := kw1 }
  else
    let params2 := if pyTruthy context then params ++ [context] else params
    { calls := [⟨obj, method, params2, []⟩],
      outcome := Except.ok (env obj method params2),
      ignored := kw1 }

/-- The keyword names that the special cases of `Client.execute` may
consume (`context`, and `offset`/`limit`/`order`/`fields` through
`searchargs` and the `read` branch). -/
def consumedKeys : List String := ["context", "offset", "limit", "order", "fields"]

/-- Lookup in the dynamic part of a `Record.__dict__`. -/
def dictGet : List (String × PyVal) → String → Option PyVal
  | [], _ => none
  | (k, v) :: rest, key => if k = key then some v else dictGet rest key

/-- Boolean membership test for key lists (Python `key in keys`). -/
def strMem (k : String) : List String → Bool
  | [] => false
  | a :: rest => if a = k then true else strMem k rest

/-- Model of `Record._clear_cache` (erppeek.py lines 891-894): delete from
the instance dictionary every model field key except `id`. -/
def clearCache (mkeys : List String) (cache : List (String × PyVal)) :
    List (String × PyVal) :=
  cache.filter (fun kv => !(strMem kv.1 mkeys && kv.1 != "id"))

/-- Success path of `Record.write(values)` (erppeek.py lines 915-922): the
remote `write` call, then the cache invalidation.  (On a remote fault the
Python method propagates the exception before clearing, so this models
the successful case the claims are about.) -/
structure WriteOut where
  cache : List (String × PyVal)
  call : RemoteCall

def recordWrite (mname : String) (mkeys : List String)
    (cache : List (String × PyVal)) (rid : Int) (values : PyVal)
    (context : PyVal) : WriteOut :=
  { cache := clearCache mkeys cache,
    call := ⟨mname, "write", [PyVal.vlist [PyVal.vint rid], values, context], []⟩ }

/-- Success path of `Record.unlink()` (erppeek.py lines 924-931). -/
def recordUnlink (mname : String) (mkeys : List String)
    (cache : List (String × PyVal)) (rid : Int) (context : PyVal) : WriteOut :=
  { cache := clearCache mkeys cache,
    call := ⟨mname, "unlink", [PyVal.vlist [PyVal.vint rid], context], []⟩ }

/-- What an attribute read of a model field does (Python attribute lookup
consults the instance dictionary first; `__getattr__`/`__getitem__` run
only on a miss, erppeek.py lines 950-958 and 977-979). -/
inductive ReadOutcome where
  | cached : PyVal → ReadOutcome
  | fetched : ReadOutcome
  | attrError : ReadOutcome

def recordGetAttr (mkeys : List String) (cache : List (String × PyVal))
    (attr : String) : ReadOutcome :=
  match dictGet cache attr with
  | some v => ReadOutcome.cached v
  | none => if strMem attr mkeys then ReadOutcome.fetched else ReadOutcome.attrError

/-- What `str(record)` (i.e. `self._name`, erppeek.py lines 872-873 and
977-982) does: a cached `_name` is returned from the instance dictionary;
otherwise, if `_name` happens to be a model field it is fetched as a
field, else `_get_name()` issues a `name_get` remote call. -/
inductive NameOutcome where
  | cachedName : PyVal → NameOutcome
  | fieldFetch : NameOutcome
  | nameFetch : NameOutcome

def recordStr (mkeys : List String) (cache : List (String × PyVal)) : NameOutcome :=
  match dictGet cache "_name" with
  | some v => NameOutcome.cachedName v
  | none =>
      if strMem "_name" mkeys then NameOutcome.fieldFetch else NameOutcome.nameFetch

/-- The `uid` variable of `Client._auth`: Python `None`, `False`, or an
integer user id. -/
inductive UidV where
  | noneV : UidV
  | falseV : UidV
  | intV : Int → UidV
deriving DecidableEq

def uidTruthy : UidV → Bool
  | UidV.intV n => !(n = 0)
  | _ => false

/-- The `password` variable of `Client._auth`: Python `None` or a string. -/
inductive PwV where
  | noneV : PwV
  | strV : String → PwV
deriving DecidableEq

def pwTruthy : PwV → Bool
  | PwV.noneV => false
  | PwV.strV s => !(s = "")

/-- The collaborators `Client._auth` talks to, fixed for one `(server, db,
user)` key: the session-cache entry for that key, the
`access('res.users','write')` probe, the `res.users` lookup, the
out-of-band password prompt, `_check_valid` and `common.login`. -/
structure AuthEnv where
  cacheEntry : Option (Int × PwV)
  accessWrite : Bool
  readUsers : Option (Int × String)
  getpassResult : String
  checkValid : Int → PwV → Bool
  loginCall : PwV → UidV

structure AuthResult where
  uid : UidV
  password : PwV
  cacheAfter : Option (Int × PwV)
  consultedCache : Bool
  loginCalled : Bool

/-- Model of `Client._auth(user, password)` (erppeek.py lines 368-401),
instrumented with whether the session cache was read and whether
`common.login` was called. -/
def clientAuth (env : AuthEnv) (password0 : PwV) : AuthResult :=
  let phase1 : UidV × PwV × Bool :=
    if pwTruthy password0 then (UidV.noneV, password0, false)
    else
      let got : UidV × PwV :=
        match env.cacheEntry with
        | some (cu, cp) => (UidV.intV cu, cp)
        | none => (UidV.noneV, PwV.noneV)
      let got2 : UidV × PwV :=
        if !uidTruthy got.1 && env.accessWrite then
          match env.readUsers with
          | some (rid, rpw) => (UidV.intV rid, PwV.strV rpw)
          | none => (UidV.falseV, got.2)
        else got
      let p3 :=
        if !pwTruthy got2.2 && got2.1 ≠ UidV.falseV then PwV.strV env.getpassResult
        else got2.2
      (got2.1, p3, true)
  let uid1 := phase1.1
  let pw1 := phase1.2.1
  let consulted := phase1.2.2
  let phase2 : UidV × Option (Int × PwV) × Bool :=
    match uid1 with
    | UidV.intV n =>
        if !(n = 0) then
          if env.checkValid n pw1 then (uid1, env.cacheEntry, false)
          else (UidV.falseV, none, false)
        else (uid1, env.cacheEntry, false)
    | UidV.noneV => (env.loginCall pw1, env.cacheEntry, true)
    | UidV.falseV => (uid1, env.cacheEntry, false)
  let uid2 := phase2.1
  let cacheMid := phase2.2.1
  let called := phase2.2.2
  match uid2 with
  | UidV.intV n =>
      if !(n = 0) then
        { uid := uid2, password := pw1, cacheAfter := some (n, pw1),
          consultedCache := consulted, loginCalled := called }
      else
        { uid := uid2, password := pw1, cacheAfter := cacheMid,
          consultedCache := consulted, loginCalled := called }
  | _ =>
      { uid := uid2, password := pw1, cacheAfter := cacheMid,
        consultedCache := consulted, loginCalled := called }

/-- The per-connection model registry (`Client._models`) with fresh
`Model` objects represented by allocation tokens: identical token means
identical Python object. -/
structure ClientState where
  models : List (String × Nat)
  nextTok : Nat

/-- Model of `Client._model(name)` (erppeek.py lines 600-608): return the
memoized instance, or allocate, register and return a new one. -/
def clientModelRaw (s : ClientState) (name : String) : Nat × ClientState :=
  match s.models.lookup name with
  | some t => (t, s)
  | none => (s.nextTok, ⟨(name, s.nextTok) :: s.models, s.nextTok + 1⟩)

/-- Model of `Client.model(name)` (erppeek.py lines 628-643), with `env`
giving the names returned by the remote `ir.model` search that
`Client.models` performs.  `Model.__new__` (line 706-707) delegates
here. -/
def clientModel (env : String → List String) (s : ClientState) (name : String) :
    Except PyErr (Nat × ClientState) :=
  match s.models.lookup name with
  | some t => Except.ok (t, s)
  | none =>
      let s2 := (env name).foldl (fun st n => (clientModelRaw st n).2) s
      match s2.models.lookup name with
      | some t => Except.ok (t, s2)
      | none => Except.error (PyErr.runtimeError ("Model not found: " ++ name))

/-- Per-instance lazy metadata cache (`Model._keys` through
`Model.__getattr__`, erppeek.py lines 787-790), keyed by the instance
token; the Bool reports whether a remote fetch happened. -/
def modelKeysFetch (env : Nat → List String) (meta : List (Nat × List String))
    (t : Nat) : List String × List (Nat × List String) × Bool :=
  match meta.lookup t with
  | some ks => (ks, meta, false)
  | none => (env t, (t, env t) :: meta, true)

/-- A failure of the permission-check remote call as seen by
`Model.access` (erppeek.py lines 749-760): an XML-RPC `Fault`, or the
`TypeError` of calling through a not-logged-in client. -/
inductive AccessFailure where
  | fault : String → AccessFailure
  | typeError : AccessFailure

/-- Model of `Model.access(mode)`: the `try/except` around the
`ir.model.access.check` call, threaded through the client state it leaves
untouched. -/
def modelAccess (checkResult : Except AccessFailure PyVal) (s : ClientState) :
    Bool × ClientState :=
  match checkResult with
  | Except.ok _ => (true, s)
  | Except.error _ => (false, s)

example : searchargs [] [] PyVal.vnone = Except.ok ([PyVal.vlist []], []) := rfl

example : searchargs [PyVal.vlist [PyVal.vstr "state != draft"]] [] PyVal.vnone
    = Except.ok ([PyVal.vlist [PyVal.vtuple
        [PyVal.vstr "state", PyVal.vstr "!=", PyVal.vstr "draft"]]], []) := rfl

example : searchargs [PyVal.vlist [PyVal.vstr "a >= 5"]] [] PyVal.vnone
    = Except.ok ([PyVal.vlist [PyVal.vtuple
        [PyVal.vstr "a", PyVal.vstr ">", PyVal.vstr "= 5"]]], []) := rfl

example : termMatch (pyStrip "foobar".data) = none := rfl

example : termMatch (pyStrip "domain".data) = some ("doma", "in", "") := rfl

example : literalEval "[1,2]" = some (PyVal.vlist [PyVal.vint 1, PyVal.vint 2]) := rfl

example : literalEval "1.5" = some (PyVal.vfloat 15 (-1)) := rfl

example : literalEval "[[1]]" = some (PyVal.vlist [PyVal.vlist [PyVal.vint 1]]) := rfl

example : literalEval "\x7b'a': 1\x7d"
    = some (PyVal.vdict [(PyVal.vstr "a", PyVal.vint 1)]) := rfl

example : literalEval "-5" = some (PyVal.vint (-5)) := rfl

example : literalEval "(1, 'x')"
    = some (PyVal.vtuple [PyVal.vint 1, PyVal.vstr "x"]) := rfl

example : literalEval "2e3" = some (PyVal.vfloat 2 3) := rfl

example : literalEval "0x1f" = some (PyVal.vint 31) := rfl

example : literalEval "{1, 2}" = some (PyVal.vset [PyVal.vint 1, PyVal.vint 2]) := rfl

example : literalEval "draft" = none := rfl

example : literalEval "= 5" = none := rfl

/-! ## Helper lemmas -/

theorem take_len_append {α : Type} (l1 l2 : List α) : (l1 ++ l2).take l1.length = l1 := by
  induction l1 with
  | nil => rfl
  | cons a as ih => simp [ih]

theorem drop_len_append {α : Type} (l1 l2 : List α) : (l1 ++ l2).drop l1.length = l2 := by
  induction l1 with
  | nil => rfl
  | cons a as ih => exact ih

theorem takeWhile_middle (p : Char → Bool) :
    ∀ (l1 : List Char) (c : Char) (l2 : List Char),
      (∀ a ∈ l1, p a = true) → p c = false →
      (l1 ++ c :: l2).takeWhile p = l1 := by
  intro l1
  induction l1 with
  | nil =>
      intro c l2 _ hc
      simp [List.takeWhile_cons, hc]
  | cons a as ih =>
      intro c l2 h hc
      have ha : p a = true := h a (List.mem_cons_self a as)
      simp [List.takeWhile_cons, ha,
        ih c l2 (fun x hx => h x (List.mem_cons_of_mem a hx)) hc]

theorem takeWhile_all {p : Char → Bool} :
    ∀ l : List Char, (∀ a ∈ l, p a = true) → l.takeWhile p = l := by
  intro l
  induction l with
  | nil => intro _; rfl
  | cons a as ih =>
      intro h
      simp [List.takeWhile_cons, h a (List.mem_cons_self a as),
        ih (fun x hx => h x (List.mem_cons_of_mem a hx))]

theorem findSome?_cons_some {α β : Type} (f : α → Option β) (a : α) (l : List α)
    (b : β) (h : f a = some b) : List.findSome? f (a :: l) = some b := by
  simp [List.findSome?, h]

theorem findSome?_cons_none {α β : Type} (f : α → Option β) (a : α) (l : List α)
    (h : f a = none) : List.findSome? f (a :: l) = List.findSome? f l := by
  simp [List.findSome?, h]

theorem findSome?_append_none {α β : Type} (f : α → Option β) :
    ∀ (l1 l2 : List α), (∀ x ∈ l1, f x = none) →
      List.findSome? f (l1 ++ l2) = List.findSome? f l2 := by
  intro l1
  induction l1 with
  | nil => intro l2 _; rfl
  | cons a as ih =>
      intro l2 h
      rw [List.cons_append, findSome?_cons_none f a _ (h a (List.mem_cons_self a as))]
      exact ih l2 (fun x hx => h x (List.mem_cons_of_mem a hx))

theorem strPrefixOf_append_self (a t : List Char) : strPrefixOf a (a ++ t) = true := by
  induction a with
  | nil => rfl
  | cons x xs ih => simp [strPrefixOf, ih]

theorem strPrefixOf_take :
    ∀ (a b : List Char) (k : Nat), strPrefixOf a b = true →
      strPrefixOf (a.take k) (b.take k) = true := by
  intro a
  induction a with
  | nil => intro b k _; simp [strPrefixOf]
  | cons x xs ih =>
      intro b k h
      cases b with
      | nil => simp [strPrefixOf] at h
      | cons y ys =>
          simp only [strPrefixOf, Bool.and_eq_true, beq_iff_eq] at h
          obtain ⟨hxy, hrest⟩ := h
          cases k with
          | zero => simp [strPrefixOf]
          | succ m =>
              simp [List.take, strPrefixOf, hxy, ih ys m hrest]

theorem strPrefixOf_false_of_take (a b : List Char) (k : Nat)
    (h : strPrefixOf (a.take k) (b.take k) = false) : strPrefixOf a b = false := by
  cases hab : strPrefixOf a b with
  | false => rfl
  | true =>
      rw [strPrefixOf_take a b k hab] at h
      exact Bool.noConfusion h

theorem mem_dropWhile_ne_cons (l : List String) (op : String) (h : op ∈ l) :
    ∃ t, l.dropWhile (fun o => o != op) = op :: t := by
  induction l with
  | nil => cases h
  | cons a rest ih =>
      by_cases ha : a = op
      · subst ha
        exact ⟨rest, by simp [List.dropWhile_cons]⟩
      · have h' : op ∈ rest := by
          cases h with
          | head => exact absurd rfl ha
          | tail _ h2 => exact h2
        obtain ⟨t, ht⟩ := ih h'
        exact ⟨t, by simp [List.dropWhile_cons, ha, ht]⟩

theorem str_data_append (a b : String) : (a ++ b).data = a.data ++ b.data := by
  cases a
  cases b
  rfl

theorem term_data_shape (field op value : String) :
    (field ++ " " ++ op ++ " " ++ value).data
      = field.data ++ ' ' :: (op.data ++ ' ' :: value.data) := by
  simp [str_data_append, (show (" " : String).data = [' '] from rfl)]

/-- The eleven operators for which leftmost-first alternation coincides
with the operator itself (all of the closed set except `>=` and `<=`). -/
def goodOps : List String :=
  ["=", "!=", ">", "<", "like", "ilike", "in", "not like", "not ilike",
   "not in", "child_of"]

theorem goodOps_subset : ∀ o ∈ goodOps, o ∈ opsAlternation := by decide

theorem goodOps_head : ∀ o ∈ goodOps,
    o.data ≠ [] ∧ pySpace (o.data.headD ' ') = false := by decide

/-- For every operator in `goodOps`, no earlier alternative of the
alternation is a prefix of `op ++ " "` (checked on the first
`op.length + 1` characters, which is all a prefix test can consult before
the value text starts). -/
theorem earlier_not_prefix :
    ∀ op ∈ goodOps, ∀ o ∈ opsAlternation.takeWhile (fun o2 => o2 != op),
      strPrefixOf (o.data.take (op.data.length + 1)) (op.data ++ [' ']) = false := by
  decide

/-- On input `op ++ " " ++ value` with `op ∈ goodOps`, the alternation
scan selects exactly `op`, whatever the field and value are. -/
theorem altScan_good (field op value : String) (hop : op ∈ goodOps) :
    altScan field (op.data ++ ' ' :: value.data)
      = some (field, op,
          String.mk ((value.data.dropWhile pySpace).takeWhile (fun ch => ch != '\n'))) := by
  have hmem : op ∈ opsAlternation := goodOps_subset op hop
  obtain ⟨t, ht⟩ := mem_dropWhile_ne_cons opsAlternation op hmem
  have htake : ∀ o ∈ opsAlternation.takeWhile (fun o2 => o2 != op),
      strPrefixOf o.data (op.data ++ ' ' :: value.data) = false := by
    intro o ho
    apply strPrefixOf_false_of_take o.data _ (op.data.length + 1)
    have hshape : op.data ++ ' ' :: value.data = (op.data ++ [' ']) ++ value.data := by
      simp
    have hlen : (op.data ++ [' ']).length = op.data.length + 1 := by simp
    rw [hshape, ← hlen, take_len_append]
    rw [hlen]
    exact earlier_not_prefix op hop o ho
  have hnone : ∀ o ∈ opsAlternation.takeWhile (fun o2 => o2 != op),
      (fun op2 =>
        if strPrefixOf op2.data (op.data ++ ' ' :: value.data) then
          some (field, op2,
            String.mk ((((op.data ++ ' ' :: value.data).drop op2.data.length).dropWhile
              pySpace).takeWhile (fun ch => ch != '\n')))
        else none) o = none := by
    intro o ho
    simp [htake o ho]
  unfold altScan
  rw [← List.takeWhile_append_dropWhile (p := fun o2 => o2 != op) (l := opsAlternation),
    findSome?_append_none _ _ _ hnone, ht]
  apply findSome?_cons_some
  have hpref : strPrefixOf op.data (op.data ++ ' ' :: value.data) = true :=
    strPrefixOf_append_self _ _
  have hdrop : (op.data ++ ' ' :: value.data).drop op.data.length = ' ' :: value.data :=
    drop_len_append _ _
  simp [hpref, hdrop, List.dropWhile_cons, (show pySpace ' ' = true from rfl)]

/-- If the alternation succeeds right after the single separating space,
that is the first success the backtracking engine finds. -/
theorem termMatch_step (field : String) (c : Char) (tl : List Char)
    (hne : field.data ≠ [])
    (hfc : ∀ a ∈ field.data, pySpace a = false)
    (hc : pySpace c = false)
    (r : String × String × String)
    (halt : altScan field (c :: tl) = some r) :
    termMatch (field.data ++ ' ' :: c :: tl) = some r := by
  have htw : (field.data ++ ' ' :: c :: tl).takeWhile (fun x => !(pySpace x))
      = field.data :=
    takeWhile_middle _ field.data ' ' (c :: tl)
      (fun a ha => by simp [hfc a ha])
      (by simp [(show pySpace ' ' = true from rfl)])
  obtain ⟨fl0, hfl⟩ : ∃ m, field.data.length = m + 1 := by
    cases hd : field.data with
    | nil => exact absurd hd hne
    | cons a as => exact ⟨as.length, by simp [hd]⟩
  have h1 : (field.data ++ ' ' :: c :: tl).take (fl0 + 1) = field.data := by
    rw [← hfl]
    exact take_len_append _ _
  have h2 : (field.data ++ ' ' :: c :: tl).drop (fl0 + 1) = ' ' :: c :: tl := by
    rw [← hfl]
    exact drop_len_append _ _
  have h3 : (' ' :: c :: tl).takeWhile pySpace = [' '] := by
    simp [List.takeWhile_cons, hc, (show pySpace ' ' = true from rfl)]
  unfold termMatch
  rw [htw, hfl]
  rw [show countdown (fl0 + 1) = (fl0 + 1) :: countdown fl0 from rfl]
  apply findSome?_cons_some
  rw [h1, h2, h3]
  rw [show countdownZ ([' '].length) = [1, 0] from rfl]
  apply findSome?_cons_some
  rw [show (' ' :: c :: tl).drop 1 = c :: tl from rfl]
  rw [show String.mk field.data = field from rfl]
  exact halt

theorem pyStrip_eq_self (l : List Char)
    (h1 : ∀ c, l.head? = some c → pySpace c = false)
    (h2 : ∀ c, l.reverse.head? = some c → pySpace c = false) :
    pyStrip l = l := by
  have hd : l.dropWhile pySpace = l := by
    cases l with
    | nil => rfl
    | cons a as => simp [List.dropWhile_cons, h1 a rfl]
  rw [pyStrip, hd]
  have hr : l.reverse.dropWhile pySpace = l.reverse := by
    cases hrev : l.reverse with
    | nil => rfl
    | cons b bs => simp [List.dropWhile_cons, h2 b (by rw [hrev]; rfl)]
  rw [hr, List.reverse_reverse]

theorem term_strip (field op value : String)
    (hf : field.data ≠ []) (hfc : ∀ c ∈ field.data, pySpace c = false)
    (hv : value.data ≠ []) (hvc : ∀ c ∈ value.data, pySpace c = false) :
    pyStrip (field.data ++ ' ' :: (op.data ++ ' ' :: value.data))
      = field.data ++ ' ' :: (op.data ++ ' ' :: value.data) := by
  apply pyStrip_eq_self
  · intro c hc
    cases hfd : field.data with
    | nil => exact absurd hfd hf
    | cons a as =>
        rw [hfd] at hc
        simp at hc
        subst hc
        exact hfc a (by rw [hfd]; exact List.mem_cons_self a as)
  · intro c hc
    obtain ⟨vc, vr, hvr⟩ : ∃ vc vr, value.data.reverse = vc :: vr := by
      cases hvr0 : value.data.reverse with
      | nil =>
          exact absurd (by simpa using congrArg List.reverse hvr0) hv
      | cons vc vr => exact ⟨vc, vr, rfl⟩
    rw [List.reverse_append, List.reverse_cons, List.reverse_append,
      List.reverse_cons] at hc
    rw [hvr] at hc
    simp at hc
    subst hc
    have : vc ∈ value.data := by
      rw [← List.mem_reverse, hvr]
      exact List.mem_cons_self vc vr
    exact hvc vc this

/-- Full parse of a single well-formed term string through `_term_re`,
for any operator in `goodOps`. -/
theorem termMatch_term (field op value : String)
    (hf : field.data ≠ []) (hfc : ∀ c ∈ field.data, pySpace c = false)
    (hop : op ∈ goodOps)
    (hv : value.data ≠ [])
    (hvc : ∀ c ∈ value.data, pySpace c = false ∧ ¬(c = '\n')) :
    termMatch (pyStrip (field ++ " " ++ op ++ " " ++ value).data)
      = some (field, op, value) := by
  have hvd : (value.data.dropWhile pySpace).takeWhile (fun ch => ch != '\n')
      = value.data := by
    have hx : value.data.dropWhile pySpace = value.data := by
      cases hvd0 : value.data with
      | nil => rfl
      | cons a as =>
          simp [List.dropWhile_cons,
            (hvc a (by rw [hvd0]; exact List.mem_cons_self a as)).1]
    rw [hx]
    exact takeWhile_all value.data (fun a ha => by simp [(hvc a ha).2])
  obtain ⟨oc, orest, hod⟩ : ∃ oc orest, op.data = oc :: orest := by
    cases hod0 : op.data with
    | nil => exact absurd hod0 (goodOps_head op hop).1
    | cons oc orest => exact ⟨oc, orest, rfl⟩
  have hoc : pySpace oc = false := by
    have := (goodOps_head op hop).2
    rwa [hod] at this
  have halt : altScan field (oc :: (orest ++ ' ' :: value.data))
      = some (field, op, value) := by
    have := altScan_good field op value hop
    rw [hod] at this
    simp only [List.cons_append] at this
    rw [this]
    rw [hvd]
  rw [term_data_shape, term_strip field op value hf hfc hv (fun c hc => (hvc c hc).1)]
  rw [hod]
  rw [show field.data ++ ' ' :: ((oc :: orest) ++ ' ' :: value.data)
      = field.data ++ ' ' :: (oc :: (orest ++ ' ' :: value.data)) from by simp]
  exact termMatch_step field oc (orest ++ ' ' :: value.data) hf hfc hoc _ halt

theorem strMem_iff (k : String) (l : List String) : strMem k l = true ↔ k ∈ l := by
  induction l with
  | nil => simp [strMem]
  | cons a rest ih =>
      by_cases ha : a = k
      · subst ha; simp [strMem]
      · simp [strMem, ha, ih, Ne.symm ha]

theorem dictGet_filter_none (p : String × PyVal → Bool)
    (cache : List (String × PyVal)) (k : String)
    (hp : ∀ v, p (k, v) = false) : dictGet (cache.filter p) k = none := by
  induction cache with
  | nil => rfl
  | cons kv rest ih =>
      rcases kv with ⟨k0, v0⟩
      by_cases hk0 : k0 = k
      · subst hk0
        rw [List.filter_cons, hp v0]
        simpa using ih
      · rw [List.filter_cons]
        cases hpv : p (k0, v0) <;> simp [dictGet, hk0, ih]

theorem dictGet_filter_keep (p : String × PyVal → Bool)
    (cache : List (String × PyVal)) (k : String)
    (hp : ∀ v, p (k, v) = true) :
    dictGet (cache.filter p) k = dictGet cache k := by
  induction cache with
  | nil => rfl
  | cons kv rest ih =>
      rcases kv with ⟨k0, v0⟩
      by_cases hk0 : k0 = k
      · subst hk0
        rw [List.filter_cons, hp v0]
        simp [dictGet]
      · rw [List.filter_cons]
        cases hpv : p (k0, v0) <;> simp [dictGet, hk0, ih]

/-! ## Record cache invalidation (C2, C10) -/

/-- C2: after a successful `Record.write(values)` or `Record.unlink()`,
every locally cached model field of that Record except the id itself is
removed from the cache, so any subsequent read of any model field on that
Record triggers a fresh remote fetch; no cached field value from before
the write/unlink is ever returned afterwards. -/
theorem write_unlink_clear_cache (mname : String) (mkeys : List String)
    (cache : List (String × PyVal)) (rid : Int) (values context : PyVal)
    (k : String) (hk : k ∈ mkeys) (hne : k ≠ "id") :
    dictGet (recordWrite mname mkeys cache rid values context).cache k = none ∧
    recordGetAttr mkeys (recordWrite mname mkeys cache rid values context).cache k
      = ReadOutcome.fetched ∧
    dictGet (recordUnlink mname mkeys cache rid context).cache k = none ∧
    recordGetAttr mkeys (recordUnlink mname mkeys cache rid context).cache k
      = ReadOutcome.fetched := by
  have hp : ∀ v, (fun kv : String × PyVal => !(strMem kv.1 mkeys && kv.1 != "id")) (k, v)
      = false := by
    intro v
    have h1 : strMem k mkeys = true := (strMem_iff k mkeys).2 hk
    simp [h1, hne]
  have hget : dictGet (clearCache mkeys cache) k = none :=
    dictGet_filter_none _ cache k hp
  have hmem : strMem k mkeys = true := (strMem_iff k mkeys).2 hk
  refine ⟨hget, ?_, hget, ?_⟩ <;>
    simp [recordWrite, recordUnlink, recordGetAttr, hget, hmem]

theorem write_unlink_clear_cache_witness :
    ("state" : String) ∈ ["id", "name", "state"] ∧ ("state" : String) ≠ "id" ∧
    dictGet (recordWrite "res.partner" ["id", "name", "state"]
        [("state", PyVal.vstr "draft"), ("_name", PyVal.vstr "[1] X")]
        1 PyVal.vnone PyVal.vnone).cache "state" = none ∧
    recordGetAttr ["id", "name", "state"]
        (recordWrite "res.partner" ["id", "name", "state"]
          [("state", PyVal.vstr "draft"), ("_name", PyVal.vstr "[1] X")]
          1 PyVal.vnone PyVal.vnone).cache "state" = ReadOutcome.fetched := by
  have h := write_unlink_clear_cache "res.partner" ["id", "name", "state"]
    [("state", PyVal.vstr "draft"), ("_name", PyVal.vstr "[1] X")]
    1 PyVal.vnone PyVal.vnone "state" (by simp) (by simp)
  exact ⟨by simp, by simp, h.1, h.2.1⟩

/-- C10: the cache invalidation of `write`/`unlink` removes only model
field keys, so a display name cached under `_name` (which is not a model
field: the display-name path of `__getattr__` only runs when `_name` is
not in `_model._keys`) survives, and `str(record)` afterwards returns the
previously cached name without a fresh remote fetch. -/
theorem name_survives_write (mname : String) (mkeys : List String)
    (cache : List (String × PyVal)) (rid : Int) (values context nm : PyVal)
    (hres : dictGet cache "_name" = some nm) (hnk : "_name" ∉ mkeys) :
    recordStr mkeys (recordWrite mname mkeys cache rid values context).cache
      = NameOutcome.cachedName nm := by
  have hp : ∀ v, (fun kv : String × PyVal => !(strMem kv.1 mkeys && kv.1 != "id")) ("_name", v)
      = true := by
    intro v
    have h1 : strMem "_name" mkeys = false := by
      cases h : strMem "_name" mkeys
      · rfl
      · exact absurd ((strMem_iff _ mkeys).1 h) hnk
    simp [h1]
  have hget : dictGet (clearCache mkeys cache) "_name" = some nm := by
    rw [clearCache, dictGet_filter_keep _ cache _ hp, hres]
  simp [recordWrite, recordStr, hget]

theorem name_survives_write_witness :
    dictGet [("name", PyVal.vstr "X"), ("_name", PyVal.vstr "[1] X")] "_name"
      = some (PyVal.vstr "[1] X") ∧
    recordStr ["id", "name", "state"]
      (recordWrite "res.partner" ["id", "name", "state"]
        [("name", PyVal.vstr "X"), ("_name", PyVal.vstr "[1] X")]
        1 PyVal.vnone PyVal.vnone).cache
      = NameOutcome.cachedName (PyVal.vstr "[1] X") :=
  ⟨rfl, name_survives_write "res.partner" ["id", "name", "state"]
    [("name", PyVal.vstr "X"), ("_name", PyVal.vstr "[1] X")]
    1 PyVal.vnone PyVal.vnone (PyVal.vstr "[1] X") rfl (by simp)⟩

/-! ## Model.access (C7) -/

/-- C7: `Model.access(mode)` never raises: a fault (or the `TypeError` of
an unauthenticated client) in the permission-check remote call yields
`False`, a successful check yields `True`, and the probe leaves the local
client state unchanged. -/
theorem access_never_raises (r : Except AccessFailure PyVal) (s : ClientState) :
    (modelAccess r s).2 = s ∧
    (∀ f, r = Except.error f → (modelAccess r s).1 = false) ∧
    (∀ v, r = Except.ok v → (modelAccess r s).1 = true) := by
  refine ⟨?_, ?_, ?_⟩ <;> cases r <;> simp [modelAccess]

theorem access_never_raises_witness :
    (modelAccess (Except.error (AccessFailure.fault "AccessError")) ⟨[], 0⟩).1 = false ∧
    (modelAccess (Except.ok PyVal.vnone) ⟨[], 0⟩).1 = true :=
  ⟨(access_never_raises _ _).2.1 _ rfl, (access_never_raises _ _).2.2 _ rfl⟩

/-! ## Model memoization (C4) -/

theorem clientModelRaw_lookup (s : ClientState) (name : String) (t : Nat)
    (s1 : ClientState) (h : clientModelRaw s name = (t, s1)) :
    s1.models.lookup name = some t := by
  unfold clientModelRaw at h
  cases hl : s.models.lookup name with
  | some t0 =>
      rw [hl] at h
      cases h
      exact hl
  | none =>
      rw [hl] at h
      cases h
      simp [List.lookup]

theorem clientModel_lookup (env : String → List String) (s : ClientState)
    (name : String) (t : Nat) (s1 : ClientState)
    (h : clientModel env s name = Except.ok (t, s1)) :
    s1.models.lookup name = some t := by
  unfold clientModel at h
  cases hl : s.models.lookup name with
  | some t0 =>
      simp only [hl] at h
      cases h
      exact hl
  | none =>
      simp only [hl] at h
      cases hl2 : (((env name).foldl (fun st n => (clientModelRaw st n).2) s).models).lookup name with
      | some t0 =>
          simp only [hl2] at h
          cases h
          exact hl2
      | none => simp only [hl2] at h; cases h

/-- C4: for every connection and model name, any two requests for the
`Model` of that name (via `Client._model`, `Client.model`, or the `Model`
constructor, which delegates to `Client.model`) return the identical
instance -- the same allocation token, with the registry unchanged -- and
the per-instance metadata cache therefore fetches the key list at most
once per `(Connection, name)` pair. -/
theorem model_memoized (env : String → List String) (s : ClientState) (name : String) :
    (∀ t s1, clientModelRaw s name = (t, s1) →
       clientModelRaw s1 name = (t, s1) ∧ clientModel env s1 name = Except.ok (t, s1)) ∧
    (∀ t s1, clientModel env s name = Except.ok (t, s1) →
       clientModelRaw s1 name = (t, s1) ∧ clientModel env s1 name = Except.ok (t, s1)) ∧
    (∀ (menv : Nat → List String) (meta : List (Nat × List String)) (t : Nat),
       modelKeysFetch menv (modelKeysFetch menv meta t).2.1 t
         = ((modelKeysFetch menv meta t).1, (modelKeysFetch menv meta t).2.1, false)) := by
  refine ⟨?_, ?_, ?_⟩
  · intro t s1 h
    have hl := clientModelRaw_lookup s name t s1 h
    constructor
    · unfold clientModelRaw; rw [hl]
    · unfold clientModel; rw [hl]
  · intro t s1 h
    have hl := clientModel_lookup env s name t s1 h
    constructor
    · unfold clientModelRaw; rw [hl]
    · unfold clientModel; rw [hl]
  · intro menv meta t
    unfold modelKeysFetch
    cases hl : meta.lookup t with
    | some ks => simp [hl]
    | none => simp [hl, List.lookup]

theorem model_memoized_witness :
    clientModelRaw ⟨[("res.partner", 0)], 1⟩ "res.partner"
      = (0, ⟨[("res.partner", 0)], 1⟩) ∧
    clientModel (fun _ => []) ⟨[("res.partner", 0)], 1⟩ "res.partner"
      = Except.ok (0, ⟨[("res.partner", 0)], 1⟩) :=
  (model_memoized (fun _ => []) ⟨[], 0⟩ "res.partner").1 0
    ⟨[("res.partner", 0)], 1⟩ rfl

/-! ## Authentication (C3) -/

def envC3 : AuthEnv :=
  { cacheEntry := some (7, PwV.strV "cachedpw"), accessWrite := false,
    readUsers := none, getpassResult := "typed",
    checkValid := fun _ _ => true, loginCall := fun _ => UidV.falseV }

/-- C3 counterexample: an authentication request that supplies the
explicit password `""` (a supplied credential that is falsy in Python)
does consult the session cache and performs no direct `common.login`
call, contradicting the claim for that input. -/
theorem auth_empty_password_counterexample :
    (clientAuth envC3 (PwV.strV "")).consultedCache = true ∧
    (clientAuth envC3 (PwV.strV "")).loginCalled = false :=
  ⟨rfl, rfl⟩

/-- C3 (amended): for every authentication request that supplies an
explicit non-empty password, the session cache is not consulted, a direct
`common.login` call is performed, and on success (a truthy uid) the
resulting `(uid, password)` pair is stored in the cache before
returning. -/
theorem auth_explicit_password (env : AuthEnv) (p : String) (hp : p ≠ "") :
    (clientAuth env (PwV.strV p)).consultedCache = false ∧
    (clientAuth env (PwV.strV p)).loginCalled = true ∧
    (clientAuth env (PwV.strV p)).password = PwV.strV p ∧
    (∀ n : Int, (clientAuth env (PwV.strV p)).uid = UidV.intV n → ¬(n = 0) →
       (clientAuth env (PwV.strV p)).cacheAfter = some (n, PwV.strV p)) := by
  have hp' : pwTruthy (PwV.strV p) = true := by simp [pwTruthy, hp]
  cases hres : env.loginCall (PwV.strV p) with
  | noneV =>
      refine ⟨?_, ?_, ?_, ?_⟩ <;> simp [clientAuth, hp', hres]
  | falseV =>
      refine ⟨?_, ?_, ?_, ?_⟩ <;> simp [clientAuth, hp', hres]
  | intV m =>
      by_cases hm : m = 0
      · subst hm
        refine ⟨?_, ?_, ?_, ?_⟩ <;> simp [clientAuth, hp', hres]
      · refine ⟨?_, ?_, ?_, ?_⟩ <;> simp [clientAuth, hp', hres, hm]

def envC3b : AuthEnv :=
  { cacheEntry := none, accessWrite := false, readUsers := none,
    getpassResult := "", checkValid := fun _ _ => false,
    loginCall := fun _ => UidV.intV 3 }

theorem auth_explicit_password_witness :
    (clientAuth envC3b (PwV.strV "secret")).consultedCache = false ∧
    (clientAuth envC3b (PwV.strV "secret")).loginCalled = true ∧
    (clientAuth envC3b (PwV.strV "secret")).cacheAfter
      = some (3, PwV.strV "secret") := by
  have h := auth_explicit_password envC3b "secret" (by decide)
  exact ⟨h.1, h.2.1, h.2.2.2 3 rfl (by decide)⟩

/-! ## Term parsing round-trip (C1, C8) -/

theorem term_not_connector (field op value : String) :
    DOMAIN_OPERATORS.contains (field ++ " " ++ op ++ " " ++ value) = false := by
  have hlen : 1 < (field ++ " " ++ op ++ " " ++ value).data.length := by
    rw [term_data_shape]
    simp
    omega
  have hne : ∀ x : String, x.data.length = 1 →
      ¬(x = field ++ " " ++ op ++ " " ++ value) := by
    intro x hx h
    rw [← h, hx] at hlen
    omega
  simp [DOMAIN_OPERATORS, List.contains, beq_eq_false_iff_ne]
  exact ⟨fun h => hne "!" rfl h.symm, fun h => hne "|" rfl h.symm,
    fun h => hne "&" rfl h.symm⟩

theorem term_not_connector_mem (field op value : String) :
    (field ++ " " ++ op ++ " " ++ value) ∉ DOMAIN_OPERATORS := by
  intro h
  have hc : DOMAIN_OPERATORS.contains (field ++ " " ++ op ++ " " ++ value) = true := by
    simp [List.contains, DOMAIN_OPERATORS] at h ⊢
    rcases h with h | h | h
    · exact Or.inl h
    · exact Or.inr (Or.inl h)
    · exact Or.inr (Or.inr h)
  rw [term_not_connector] at hc
  exact Bool.noConfusion hc

theorem elemNorm_term (lit : String → Option PyVal) (field op value : String)
    (hf : field.data ≠ []) (hfc : ∀ c ∈ field.data, pySpace c = false)
    (hop : op ∈ goodOps)
    (hv : value.data ≠ [])
    (hvc : ∀ c ∈ value.data, pySpace c = false ∧ ¬(c = '\n')) :
    elemNormWith lit (PyVal.vstr (field ++ " " ++ op ++ " " ++ value))
      = Except.ok (PyVal.vtuple
          [PyVal.vstr field, PyVal.vstr op, pyLitOrWith lit value]) := by
  have hm : termMatch (pyStrip (field.data ++ ' ' :: (op.data ++ ' ' :: value.data)))
      = some (field, op, value) := by
    rw [← term_data_shape]
    exact termMatch_term field op value hf hfc hop hv hvc
  simp [elemNormWith, term_not_connector field op value,
    term_not_connector_mem field op value, hm]

theorem searchargs_single_term (lit : String → Option PyVal)
    (field op value : String)
    (hf : field.data ≠ []) (hfc : ∀ c ∈ field.data, pySpace c = false)
    (hop : op ∈ goodOps)
    (hv : value.data ≠ [])
    (hvc : ∀ c ∈ value.data, pySpace c = false ∧ ¬(c = '\n')) :
    searchargsWith lit
        [PyVal.vlist [PyVal.vstr (field ++ " " ++ op ++ " " ++ value)]]
        [] PyVal.vnone
      = Except.ok ([PyVal.vlist [PyVal.vtuple
          [PyVal.vstr field, PyVal.vstr op, pyLitOrWith lit value]]], []) := by
  simp [searchargsWith, searchargsTail, normDomainWith,
    elemNorm_term lit field op value hf hfc hop hv hvc, pyTruthy]

/-- C1 (amended): for every term string `field ++ " " ++ op ++ " " ++
value` built from a nonempty whitespace-free field token, a nonempty
whitespace-and-newline-free value token, and an operator of the closed
set other than `>=` and `<=`, `searchargs` parses it into a 3-tuple whose
field and operator components equal the original field and operator
exactly.  (For `>=` and `<=` the leftmost-first alternation of `_term_re`
picks `>` resp. `<`, see the counterexample.) -/
theorem searchargs_term_roundtrip (field op value : String)
    (hf : field.data ≠ []) (hfc : ∀ c ∈ field.data, pySpace c = false)
    (hop : op ∈ goodOps)
    (hv : value.data ≠ [])
    (hvc : ∀ c ∈ value.data, pySpace c = false ∧ ¬(c = '\n')) :
    ∃ w, searchargs [PyVal.vlist [PyVal.vstr (field ++ " " ++ op ++ " " ++ value)]]
        [] PyVal.vnone
      = Except.ok ([PyVal.vlist [PyVal.vtuple
          [PyVal.vstr field, PyVal.vstr op, w]]], []) :=
  ⟨pyLitOrWith literalEval value,
    searchargs_single_term literalEval field op value hf hfc hop hv hvc⟩

/-- C1 counterexample: the valid term string `"a >= 5"` (field `a`,
operator `>=`, value `5`) is parsed with operator component `">"` -- not
the original `">="` and not the longest matching token -- because Python
regex alternation is leftmost-first and `>` precedes `>=` in
`_term_re`. -/
theorem searchargs_ge_counterexample :
    searchargs [PyVal.vlist [PyVal.vstr "a >= 5"]] [] PyVal.vnone
      = Except.ok ([PyVal.vlist [PyVal.vtuple
          [PyVal.vstr "a", PyVal.vstr ">", PyVal.vstr "= 5"]]], []) ∧
    ¬((">" : String) = ">=") :=
  ⟨rfl, by decide⟩

theorem searchargs_term_roundtrip_witness :
    ∃ w, searchargs [PyVal.vlist [PyVal.vstr "name like mushroom"]] [] PyVal.vnone
      = Except.ok ([PyVal.vlist [PyVal.vtuple
          [PyVal.vstr "name", PyVal.vstr "like", w]]], []) :=
  searchargs_term_roundtrip "name" "like" "mushroom"
    (by decide) (by decide) (by decide) (by decide) (by decide)

/-- C8: for every well-formed term string whose value text is not a valid
literal under the safe literal evaluator, the value component of the
resulting 3-tuple is the raw value text kept as a plain string.  The
evaluator (`ast.literal_eval`) is an external standard-library
collaborator, so the theorem quantifies over it: instantiating `lit`
with the actual evaluator -- of which `literalEval` is the modelled
stand-in, with `searchargs = searchargsWith literalEval` definitionally
-- the hypothesis `lit value = none` is exactly "the value text is not a
valid literal". -/
theorem searchargs_raw_value (lit : String → Option PyVal)
    (field op value : String)
    (hf : field.data ≠ []) (hfc : ∀ c ∈ field.data, pySpace c = false)
    (hop : op ∈ goodOps)
    (hv : value.data ≠ [])
    (hvc : ∀ c ∈ value.data, pySpace c = false ∧ ¬(c = '\n'))
    (hlit : lit value = none) :
    searchargsWith lit
        [PyVal.vlist [PyVal.vstr (field ++ " " ++ op ++ " " ++ value)]]
        [] PyVal.vnone
      = Except.ok ([PyVal.vlist [PyVal.vtuple
          [PyVal.vstr field, PyVal.vstr op, PyVal.vstr value]]], []) := by
  have h := searchargs_single_term lit field op value hf hfc hop hv hvc
  rwa [show pyLitOrWith lit value = PyVal.vstr value from by
    unfold pyLitOrWith; rw [hlit]] at h

/-- C8 witness: at the modelled evaluator (so at the program's
`searchargs`), the spec scenario `["state != draft"]` normalizes to
`[("state", "!=", "draft")]` with the raw string kept, since `draft` is
a bare identifier the evaluator rejects. -/
theorem searchargs_raw_value_witness :
    literalEval "draft" = none ∧
    searchargs [PyVal.vlist [PyVal.vstr "state != draft"]] [] PyVal.vnone
      = Except.ok ([PyVal.vlist [PyVal.vtuple
          [PyVal.vstr "state", PyVal.vstr "!=", PyVal.vstr "draft"]]], []) :=
  ⟨rfl, searchargs_raw_value literalEval "state" "!=" "draft"
    (by decide) (by decide) (by decide) (by decide) (by decide) rfl⟩

/-! ## Malformed terms (C5) -/

theorem normDomain_error (lit : String → Option PyVal) (domain : List PyVal)
    (x : PyVal) (hx : x ∈ domain)
    (err : PyErr) (he : elemNormWith lit x = Except.error err) :
    ∃ e2, normDomainWith lit domain = Except.error e2 := by
  induction domain with
  | nil => cases hx
  | cons a rest ih =>
      cases hea : elemNormWith lit a with
      | error e => exact ⟨e, by simp [normDomainWith, hea]⟩
      | ok a2 =>
          have hx' : x ∈ rest := by
            cases hx with
            | head =>
                rw [he] at hea
                exact Except.noConfusion hea
            | tail _ h2 => exact h2
          obtain ⟨e2, h2⟩ := ih hx'
          exact ⟨e2, by simp [normDomainWith, hea, h2]⟩

theorem elemNorm_malformed (lit : String → Option PyVal) (s : String)
    (hconn : s ∉ DOMAIN_OPERATORS)
    (hm : termMatch (pyStrip s.data) = none) :
    elemNormWith lit (PyVal.vstr s)
      = Except.error (PyErr.valueError ("Cannot parse term " ++ s)) := by
  simp [elemNormWith, hm, hconn]

/-- C5: for every domain list containing a string term that is not a
boolean connector token and on which the operator regex fails,
`Client.execute(obj, "search", domain, ...)` surfaces the query-syntax
`ValueError` ("Cannot parse term ...") and performs no remote call (and
prints no diagnostics). -/
theorem execute_malformed_term (env : String → String → List PyVal → PyVal)
    (obj s : String) (domain : List PyVal) (kwargs : List (String × PyVal))
    (hmem : PyVal.vstr s ∈ domain)
    (hconn : s ∉ DOMAIN_OPERATORS)
    (hm : termMatch (pyStrip s.data) = none) :
    (clientExecute env obj "search" [PyVal.vlist domain] kwargs).calls = [] ∧
    (∃ e, (clientExecute env obj "search" [PyVal.vlist domain] kwargs).outcome
        = Except.error e) ∧
    (clientExecute env obj "search" [PyVal.vlist domain] kwargs).ignored = [] := by
  obtain ⟨e2, hnd⟩ := normDomain_error literalEval domain _ hmem _
    (elemNorm_malformed literalEval s hconn hm)
  have hsa : searchargs [PyVal.vlist domain]
      (popKw kwargs "context" PyVal.vnone).2
      (popKw kwargs "context" PyVal.vnone).1 = Except.error e2 := by
    simp [searchargs, searchargsWith, hnd]
  refine ⟨?_, ⟨e2, ?_⟩, ?_⟩ <;> simp [clientExecute, hsa]

def env0 : String → String → List PyVal → PyVal := fun _ _ _ => PyVal.vnone

theorem execute_malformed_term_witness :
    (clientExecute env0 "res.partner" "search"
      [PyVal.vlist [PyVal.vstr "foobar"]] []).calls = [] ∧
    ∃ e, (clientExecute env0 "res.partner" "search"
      [PyVal.vlist [PyVal.vstr "foobar"]] []).outcome = Except.error e := by
  have h := execute_malformed_term env0 "res.partner" "foobar"
    [PyVal.vstr "foobar"] [] (List.mem_cons_self _ _) (by decide) rfl
  exact ⟨h.1, h.2.1⟩

/-! ## Keyword arguments never forwarded (C6) -/

theorem popKw_mem (l : List (String × PyVal)) (key : String) (d : PyVal)
    (kv : String × PyVal) (h : kv ∈ l) (hk : ¬(kv.1 = key)) :
    kv ∈ (popKw l key d).2 := by
  induction l with
  | nil => cases h
  | cons a rest ih =>
      rcases a with ⟨k0, v0⟩
      by_cases hk0 : k0 = key
      · subst hk0
        simp only [popKw, if_pos rfl]
        cases h with
        | head => exact absurd rfl hk
        | tail _ h2 => exact h2
      · simp only [popKw, if_neg hk0]
        cases h with
        | head => exact List.mem_cons_self _ _
        | tail _ h2 => exact List.mem_cons_of_mem _ (ih h2)

theorem searchargsTail_mem (domain2 rest : List PyVal)
    (kwargs : List (String × PyVal)) (context : PyVal)
    (kv : String × PyVal) (h : kv ∈ kwargs)
    (h1 : ¬(kv.1 = "offset")) (h2 : ¬(kv.1 = "limit")) (h3 : ¬(kv.1 = "order")) :
    kv ∈ (searchargsTail domain2 rest kwargs context).2 := by
  by_cases hc : ((!kwargs.isEmpty || pyTruthy context) && rest.isEmpty) = true
  · simp only [searchargsTail, if_pos hc]
    exact popKw_mem _ _ _ _ (popKw_mem _ _ _ _ (popKw_mem _ _ _ _ h h1) h2) h3
  · simp only [searchargsTail, if_neg hc]
    exact h

theorem searchargs_mem (params : List PyVal) (kwargs : List (String × PyVal))
    (context : PyVal) (sp : List PyVal) (kw2 : List (String × PyVal))
    (h : searchargs params kwargs context = Except.ok (sp, kw2))
    (kv : String × PyVal) (hmem : kv ∈ kwargs)
    (h1 : ¬(kv.1 = "offset")) (h2 : ¬(kv.1 = "limit")) (h3 : ¬(kv.1 = "order")) :
    kv ∈ kw2 := by
  cases params with
  | nil =>
      simp only [searchargs, searchargsWith, Except.ok.injEq, Prod.mk.injEq] at h
      rw [← h.2]
      exact hmem
  | cons d0 rest =>
      have htail : ∀ domain,
          Except.ok (sp, kw2)
            = (match normDomainWith literalEval domain with
               | Except.error e => Except.error e
               | Except.ok domain2 =>
                   Except.ok (searchargsTail domain2 rest kwargs context)) →
          kv ∈ kw2 := by
        intro domain hh
        cases hnd : normDomainWith literalEval domain with
        | error e => rw [hnd] at hh; exact Except.noConfusion hh
        | ok d2 =>
            rw [hnd] at hh
            have : (sp, kw2) = searchargsTail d2 rest kwargs context :=
              Except.ok.inj hh
            have hkw : kw2 = (searchargsTail d2 rest kwargs context).2 := by
              rw [← this]
            rw [hkw]
            exact searchargsTail_mem _ _ _ _ kv hmem h1 h2 h3
      cases d0 with
      | vstr s => exact htail [PyVal.vstr s] (by rw [← h]; rfl)
      | vtuple xs => exact htail [PyVal.vtuple xs] (by rw [← h]; rfl)
      | vlist xs => exact htail xs (by rw [← h]; rfl)
      | vint n =>
          simp only [searchargs, searchargsWith, Except.ok.injEq, Prod.mk.injEq] at h
          rw [← h.2]
          exact hmem
      | vfloat m e =>
          simp only [searchargs, searchargsWith, Except.ok.injEq, Prod.mk.injEq] at h
          rw [← h.2]
          exact hmem
      | vbool b =>
          simp only [searchargs, searchargsWith, Except.ok.injEq, Prod.mk.injEq] at h
          rw [← h.2]
          exact hmem
      | vnone =>
          simp only [searchargs, searchargsWith, Except.ok.injEq, Prod.mk.injEq] at h
          rw [← h.2]
          exact hmem
      | vset xs =>
          simp only [searchargs, searchargsWith, Except.ok.injEq, Prod.mk.injEq] at h
          rw [← h.2]
          exact hmem
      | vdict xs =>
          simp only [searchargs, searchargsWith, Except.ok.injEq, Prod.mk.injEq] at h
          rw [← h.2]
          exact hmem

/-- C6: every remote call issued by `Client.execute` forwards positional
parameters only (the call site is `self._execute(obj, method, *params)`,
never `**kwargs`), and every keyword argument left unconsumed by the
`read`/`name_get`/`search`/`search_count` special cases and the context
handling (i.e. any key outside `context`/`offset`/`limit`/`order`/
`fields`) ends up in the `Ignoring: ...` diagnostic list whenever the
call completes. -/
theorem execute_drops_kwargs (env : String → String → List PyVal → PyVal)
    (obj method : String) (params : List PyVal)
    (kwargs : List (String × PyVal)) (kv : String × PyVal)
    (hmem : kv ∈ kwargs) (hfree : kv.1 ∉ consumedKeys) :
    (∀ c ∈ (clientExecute env obj method params kwargs).calls, c.kwargs = []) ∧
    (∀ v, (clientExecute env obj method params kwargs).outcome = Except.ok v →
       kv ∈ (clientExecute env obj method params kwargs).ignored) := by
  have hkey : ∀ k : String, k ∈ consumedKeys → ¬(kv.1 = k) := by
    intro k hk he
    exact hfree (he ▸ hk)
  have hctx : ¬(kv.1 = "context") := hkey _ (by simp [consumedKeys])
  have hoff : ¬(kv.1 = "offset") := hkey _ (by simp [consumedKeys])
  have hlim : ¬(kv.1 = "limit") := hkey _ (by simp [consumedKeys])
  have hord : ¬(kv.1 = "order") := hkey _ (by simp [consumedKeys])
  have hfld : ¬(kv.1 = "fields") := hkey _ (by simp [consumedKeys])
  have hkv1 : kv ∈ (popKw kwargs "context" PyVal.vnone).2 :=
    popKw_mem _ _ _ _ hmem hctx
  by_cases hrm : method = "read" ∨ method = "name_get"
  · have main : ∀ method2 : String, (method2 = "read" ∨ method2 = "name_get") →
        (∀ c ∈ (clientExecute env obj method2 params kwargs).calls, c.kwargs = []) ∧
        (∀ v, (clientExecute env obj method2 params kwargs).outcome = Except.ok v →
           kv ∈ (clientExecute env obj method2 params kwargs).ignored) := by
      intro method2 hrm2
      cases params with
      | nil =>
          rcases hrm2 with rfl | rfl <;> refine ⟨?_, ?_⟩ <;> simp [clientExecute]
      | cons p0 prest =>
          by_cases hsd : issearchdomain p0 = true
          · cases hsa : searchargs [p0] (popKw kwargs "context" PyVal.vnone).2
                (popKw kwargs "context" PyVal.vnone).1 with
            | error e =>
                rcases hrm2 with rfl | rfl <;> refine ⟨?_, ?_⟩ <;>
                  simp [clientExecute, hsd, hsa]
            | ok spkw =>
                rcases spkw with ⟨sp, kw2⟩
                have hkv2 : kv ∈ kw2 :=
                  searchargs_mem _ _ _ _ _ hsa kv hkv1 hoff hlim hord
                have hkv3 : kv ∈ (popKw kw2 "fields" PyVal.vnone).2 :=
                  popKw_mem _ _ _ _ hkv2 hfld
                rcases hrm2 with rfl | rfl <;>
                  rcases hpe : prest.isEmpty with _ | _ <;>
                  refine ⟨?_, ?_⟩ <;>
                  simp [clientExecute, hsd, hsa, hpe, hkv2, hkv3]
          · rcases hrm2 with rfl | rfl <;>
              rcases hpe : prest.isEmpty with _ | _ <;>
              refine ⟨?_, ?_⟩ <;>
              simp [clientExecute, hsd, hpe, hkv1,
                popKw_mem _ "fields" PyVal.vnone kv hkv1 hfld]
    exact main method hrm
  · push_neg at hrm
    obtain ⟨hnr, hnn⟩ := hrm
    by_cases hs1 : method = "search"
    · subst hs1
      cases hsa : searchargs params (popKw kwargs "context" PyVal.vnone).2
          (popKw kwargs "context" PyVal.vnone).1 with
      | error e => refine ⟨?_, ?_⟩ <;> simp [clientExecute, hsa]
      | ok spkw =>
          rcases spkw with ⟨sp, kw2⟩
          have hkv2 : kv ∈ kw2 :=
            searchargs_mem _ _ _ _ _ hsa kv hkv1 hoff hlim hord
          refine ⟨?_, ?_⟩ <;> simp [clientExecute, hsa, hkv2]
    · by_cases hs2 : method = "search_count"
      · subst hs2
        cases hsa : searchargs params [] PyVal.vnone with
        | error e => refine ⟨?_, ?_⟩ <;> simp [clientExecute, hsa]
        | ok spkw =>
            rcases spkw with ⟨sp, kw2⟩
            refine ⟨?_, ?_⟩ <;> simp [clientExecute, hsa, hkv1]
      · refine ⟨?_, ?_⟩ <;> simp [clientExecute, hnr, hnn, hs1, hs2, hkv1]

theorem execute_drops_kwargs_witness :
    (("foo", PyVal.vint 1) ∈
      (clientExecute env0 "res.partner" "search" [PyVal.vlist []]
        [("foo", PyVal.vint 1)]).ignored) ∧
    (∀ c ∈ (clientExecute env0 "res.partner" "search" [PyVal.vlist []]
        [("foo", PyVal.vint 1)]).calls, c.kwargs = []) := by
  have h := execute_drops_kwargs env0 "res.partner" "search" [PyVal.vlist []]
    [("foo", PyVal.vint 1)] ("foo", PyVal.vint 1)
    (List.mem_cons_self _ _) (by decide)
  exact ⟨h.2 _ rfl, h.1⟩

/-- C9: for an empty or absent domain input -- no positional parameters,
or a single empty domain list -- `searchargs` yields the canonical
match-all form: the empty domain wrapped as the single positional
argument `([],)`. -/
theorem searchargs_empty_canonical :
    searchargs [] [] PyVal.vnone = Except.ok ([PyVal.vlist []], []) ∧
    searchargs [PyVal.vlist []] [] PyVal.vnone = Except.ok ([PyVal.vlist []], []) :=
  ⟨rfl, rfl⟩
